import Mathlib

/-!
Verification of the fans-analytics pipeline:
conversation segmentation (`segmentation.py`), engagement-stage assignment
(`stage_segmentation.py`) and the cached batch fan profiler
(`fan_profiler.py`).

All machine arithmetic is modelled over `Nat`/`Int` with explicit `% 2^w`
where overflow matters.  Timestamps are modelled as `Int` seconds, so the
source's 4-hour inactivity threshold (`timedelta(hours=4)`) is the constant
14400.
-/

namespace FansAnalytics

/-! ### MD5 (`get_hash` in `fan_profiler.py`)

`get_hash(text)` in the source is `hashlib.md5(text.encode()).hexdigest()`:
the MD5 of the UTF-8 bytes of the exact text, rendered as 32 lowercase hex
digits.  We embed MD5 directly (RFC 1321): padding, the 64 shift constants,
the 64 sine-derived round constants, and the four-round compression
function, over `Nat` with explicit reductions `% 2^32`. -/

/-- UTF-8 encoding of one scalar value (what Python's `str.encode()` does
per character; Lean's `Char` carries the same scalar values). -/
def utf8Char (c : Char) : List Nat :=
  let n := c.toNat
  if n < 128 then [n]
  else if n < 2048 then
    [192 + n / 64, 128 + n % 64]
  else if n < 65536 then
    [224 + n / 4096, 128 + (n / 64) % 64, 128 + n % 64]
  else
    [240 + n / 262144, 128 + (n / 4096) % 64, 128 + (n / 64) % 64, 128 + n % 64]

/-- UTF-8 bytes of a string (`text.encode()` in the source). -/
def utf8Bytes (s : String) : List Nat :=
  s.data.flatMap utf8Char

/-- The 64 per-round left-rotation amounts of MD5. -/
def md5Shift : List Nat :=
  [7, 12, 17, 22, 7, 12, 17, 22, 7, 12, 17, 22, 7, 12, 17, 22,
   5, 9, 14, 20, 5, 9, 14, 20, 5, 9, 14, 20, 5, 9, 14, 20,
   4, 11, 16, 23, 4, 11, 16, 23, 4, 11, 16, 23, 4, 11, 16, 23,
   6, 10, 15, 21, 6, 10, 15, 21, 6, 10, 15, 21, 6, 10, 15, 21]

/-- The 64 MD5 round constants `floor(2^32 * abs(sin(i+1)))`. -/
def md5K : List Nat :=
  [3614090360, 3905402710, 606105819, 3250441966, 4118548399, 1200080426,
   2821735955, 4249261313, 1770035416, 2336552879, 4294925233, 2304563134,
   1804603682, 4254626195, 2792965006, 1236535329, 4129170786, 3225465664,
   643717713, 3921069994, 3593408605, 38016083, 3634488961, 3889429448,
   568446438, 3275163606, 4107603335, 1163531501, 2850285829, 4243563512,
   1735328473, 2368359562, 4294588738, 2272392833, 1839030562, 4259657740,
   2763975236, 1272893353, 4139469664, 3200236656, 681279174, 3936430074,
   3572445317, 76029189, 3654602809, 3873151461, 530742520, 3299628645,
   4096336452, 1126891415, 2878612391, 4237533241, 1700485571, 2399980690,
   4293915773, 2240044497, 1873313359, 4264355552, 2734768916, 1309151649,
   4149444226, 3174756917, 718787259, 3951481745]

/-- 32-bit modulus. -/
def m32 : Nat := 4294967296

/-- Left-rotate a 32-bit word by `s` bits. -/
def rotl32 (x s : Nat) : Nat :=
  ((x <<< s) ||| (x >>> (32 - s))) % m32

/-- Bitwise complement of a 32-bit word. -/
def not32 (x : Nat) : Nat := 4294967295 - x

/-- MD5 padding: append `0x80`, zero bytes to 56 mod 64, then the bit
length as 8 little-endian bytes. -/
def md5Pad (msg : List Nat) : List Nat :=
  let len := msg.length
  let padLen := (55 + 64 - len % 64) % 64 + 1
  let bitLen := (len * 8) % (2 ^ 64)
  msg ++ 128 :: List.replicate (padLen - 1) 0 ++
    (List.range 8).map (fun i => bitLen / 256 ^ i % 256)

/-- Split a 64-byte chunk into sixteen little-endian 32-bit words. -/
def md5Words (chunk : List Nat) : List Nat :=
  (List.range 16).map (fun j =>
    chunk.getD (4 * j) 0 + 256 * chunk.getD (4 * j + 1) 0 +
    65536 * chunk.getD (4 * j + 2) 0 + 16777216 * chunk.getD (4 * j + 3) 0)

/-- One MD5 round `i` (0-based) on state `(a, b, c, d)`. -/
def md5Round (w : List Nat) (i : Nat) :
    Nat × Nat × Nat × Nat → Nat × Nat × Nat × Nat :=
  fun st =>
    let a := st.1
    let b := st.2.1
    let c := st.2.2.1
    let d := st.2.2.2
    let f :=
      if i < 16 then (b &&& c) ||| (not32 b &&& d)
      else if i < 32 then (d &&& b) ||| (not32 d &&& c)
      else if i < 48 then b ^^^ c ^^^ d
      else c ^^^ (b ||| not32 d)
    let g :=
      if i < 16 then i
      else if i < 32 then (5 * i + 1) % 16
      else if i < 48 then (3 * i + 5) % 16
      else (7 * i) % 16
    let t := (f + a + md5K.getD i 0 + w.getD g 0) % m32
    (d, (b + rotl32 t (md5Shift.getD i 0)) % m32, b, c)

/-- Run MD5 rounds `i, i+1, ..., 63`, counting down on remaining fuel. -/
def md5Rounds (w : List Nat) : Nat → Nat → Nat × Nat × Nat × Nat → Nat × Nat × Nat × Nat
  | 0, _, st => st
  | fuel + 1, i, st => md5Rounds w fuel (i + 1) (md5Round w i st)

/-- Compress one 64-byte chunk into the running state. -/
def md5Chunk (st : Nat × Nat × Nat × Nat) (chunk : List Nat) :
    Nat × Nat × Nat × Nat :=
  let w := md5Words chunk
  let r := md5Rounds w 64 0 st
  ((st.1 + r.1) % m32, ((st.2.1 + r.2.1) % m32,
    ((st.2.2.1 + r.2.2.1) % m32, (st.2.2.2 + r.2.2.2) % m32)))

/-- Worker for `chunksOf`, structurally recursive on a fuel argument so
that it reduces definitionally (the fuel is always at least the list
length at the call sites). -/
def chunksOfFuel (n : Nat) : Nat → List α → List (List α)
  | _, [] => []
  | 0, _ :: _ => []
  | fuel + 1, a :: t => (a :: t.take (n - 1)) :: chunksOfFuel n fuel (t.drop (n - 1))

/-- Split a list into consecutive chunks of `n` elements (`n > 0`), the
last one possibly shorter; this is the `range(0, len(xs), n)` slicing
idiom used both by `profile_fans` (batch size 20) and by the MD5
block decomposition. -/
def chunksOf (n : Nat) (l : List α) : List (List α) :=
  chunksOfFuel n l.length l

/-- The full MD5 digest of a byte string, as the 128-bit natural number
whose big-endian hex rendering is the standard hex digest (i.e. the
digest bytes `A,B,C,D` little-endian-serialized, read as a base-256
big-endian numeral).  The explicit `% 2 ^ 128` records the word size. -/
def md5Nat (s : String) : Nat :=
  let msg := md5Pad (utf8Bytes s)
  let st := (chunksOf 64 msg).foldl md5Chunk
    (1732584193, 4023233417, 2562383102, 271733878)
  let bytes :=
    [st.1, st.2.1, st.2.2.1, st.2.2.2].flatMap (fun wd =>
      [wd % 256, wd / 256 % 256, wd / 65536 % 256, wd / 16777216 % 256])
  (bytes.foldl (fun acc b => acc * 256 + b) 0) % (2 ^ 128)

/-- One lowercase hex digit. -/
def hexDigit (n : Nat) : Char :=
  if n < 10 then Char.ofNat (48 + n) else Char.ofNat (87 + n)

/-- 32-hex-digit big-endian rendering of a 128-bit number. -/
def natToHex32 (n : Nat) : String :=
  String.mk ((List.range 32).map (fun i => hexDigit (n / 16 ^ (31 - i) % 16)))

/-- `get_hash(text)` from `fan_profiler.py`:
`hashlib.md5(text.encode()).hexdigest()`. -/
def get_hash (text : String) : String :=
  natToHex32 (md5Nat text)

set_option maxRecDepth 40000 in
theorem get_hash_abc :
    get_hash "abc" = "900150983cd24fb0d6963f7d28e17f72" := by decide

set_option maxRecDepth 40000 in
theorem get_hash_empty :
    get_hash "" = "d41d8cd98f00b204e9800998ecf8427e" := by decide

/-! ### Profiles and the cache (`fan_profiler.py`)

A profile is the JSON object returned by the service, modelled as an
association list of string fields (the source only ever reads and writes
string-valued fields, and the claims only inspect `fan_model_id` and
emptiness).  The on-disk cache (`load_cache`/`save_cache`, one JSON file
per hash under `CACHE_DIR`) is modelled as a partial map from hash key to
profile. -/

/-- A profile record: the key/value fields of one JSON profile object. -/
abbrev Profile := List (String × String)

/-- The on-disk cache: `load_cache h` is `c h`, `save_cache h p` is a
pointwise update. -/
abbrev Cache := String → Option Profile

/-- A cache directory with no entries. -/
def emptyCache : Cache := fun _ => none

/-- `save_cache(hash_key, response)`: write one entry. -/
def saveCache (c : Cache) (hashKey : String) (p : Profile) : Cache :=
  fun h => if h = hashKey then some p else c h

/-- The spec's `store(text, profile)`: cache an entry under the hash of
the text (this is how `profile_fans` always writes:
`save_cache(get_hash(text), prof)`). -/
def store (c : Cache) (text : String) (p : Profile) : Cache :=
  saveCache c (get_hash text) p

/-- The spec's `lookup(text)`: `load_cache(get_hash(text))`. -/
def lookup (c : Cache) (text : String) : Option Profile :=
  c (get_hash text)

/-- The fixed key-normalization table of `normalize_keys`. -/
def keyMap : List (String × String) :=
  [("Age indicators", "age_indicators"),
   ("Job or career", "job_or_career"),
   ("Location hints", "location_hints"),
   ("Relationship status", "relationship_status"),
   ("Personality traits", "personality_traits"),
   ("Emotional needs", "emotional_needs"),
   ("Purchase motivations", "purchase_motivations"),
   ("Communication style", "communication_style"),
   ("Life events", "life_events")]

/-- `normalize_keys(profile_dict)`: rename each key through `keyMap`,
leaving unknown keys unchanged (`key_map.get(k, k)`). -/
def normalize_keys (p : Profile) : Profile :=
  p.map (fun kv => ((keyMap.lookup kv.1).getD kv.1, kv.2))

/-- Python dict assignment `prof[k] = v`: replace the value of the first
(only) occurrence of `k` in place, or append a new field. -/
def setField : Profile → String → String → Profile
  | [], k, v => [(k, v)]
  | kv :: rest, k, v =>
      if kv.1 = k then (k, v) :: rest else kv :: setField rest k v

/-- The `fan_model_id` field of a profile, if present. -/
def idOf (p : Profile) : Option String :=
  p.lookup "fan_model_id"

/-- Python truthiness of `load_cache`'s result as used in
`if cached:` — a hit needs an existing, non-empty dict. -/
def isHit : Option Profile → Bool
  | some p => !p.isEmpty
  | none => false

/-! ### The batch profiler (`profile_fans` / `call_llm_batch`)

The external service boundary is modelled by an oracle mapping the
submitted transcripts to one of three outcomes, matching the branch
structure of the source: the request itself raises (`Except.error`,
caught by `profile_fans`' `try/except`), the response text contains no
parseable JSON array (`.ok none`: `call_llm_batch` substitutes one empty
object per input), or a JSON array of profile objects is recovered
(`.ok (some ps)`; the regex bracket extraction, backtick stripping and
trailing-comma repair that produce it are abstracted into the oracle). -/

/-- The external LLM boundary. -/
abbrev Oracle := List String → Except Unit (Option (List Profile))

/-- `call_llm_batch(conversations_list)`: one request for the whole
batch; parse failure or a missing array yields one empty profile per
input fan, a raised request exception propagates to the caller. -/
def call_llm_batch (oracle : Oracle) (texts : List String) :
    Except Unit (List Profile) :=
  match oracle texts with
  | .error e => .error e
  | .ok none => .ok (texts.map (fun _ => []))
  | .ok (some ps) => .ok ps

/-- One fan as seen by the profiler: its `fan_model_id` and its
concatenated message text. -/
abbrev Fan := String × String

/-- The per-batch cache partition loop of `profile_fans`: returns the
profiles served from cache (in batch order, already normalized and
tagged) and the cache-miss fans to query (in batch order). -/
def partitionBatch (c : Cache) : List Fan → List Profile × List Fan
  | [] => ([], [])
  | f :: rest =>
      let r := partitionBatch c rest
      let cached := c (get_hash f.2)
      if isHit cached then
        (setField (normalize_keys (cached.getD [])) "fan_model_id" f.1 :: r.1, r.2)
      else
        (r.1, f :: r.2)

/-- Process one batch exactly as the body of the `profile_fans` loop
does: partition against the cache, issue at most one external call for
the cache misses, tag and persist fresh profiles positionally, and fall
back to `{"fan_model_id": id}` placeholders for the whole uncached part
of the batch when the call raises.  Returns the updated cache, the list
of external calls issued (each recorded as its submitted transcripts)
and the batch's output profiles. -/
def processBatch (oracle : Oracle) (c : Cache) (batch : List Fan) :
    Cache × List (List String) × List Profile :=
  let part := partitionBatch c batch
  let cachedProfiles := part.1
  let toQuery := part.2
  if toQuery.isEmpty then (c, [], cachedProfiles)
  else
    let texts := toQuery.map (fun f => f.2)
    match call_llm_batch oracle texts with
    | .ok newProfiles =>
        let tagged := (newProfiles.zip toQuery).map (fun pf =>
          (setField (normalize_keys pf.1) "fan_model_id" pf.2.1, get_hash pf.2.2))
        let c' := tagged.foldl (fun cc pr => saveCache cc pr.2 pr.1) c
        (c', [texts], cachedProfiles ++ tagged.map (fun pr => pr.1))
    | .error _ =>
        (c, [texts], cachedProfiles ++ toQuery.map (fun f => [("fan_model_id", f.1)]))

/-- The batch size constant `BATCH_SIZE`. -/
def BATCH_SIZE : Nat := 20

/-- The batch loop of `profile_fans`, threading the cache through the
batches and concatenating the per-batch calls and outputs. -/
def profileFansGo (oracle : Oracle) : Cache → List (List Fan) →
    Cache × List (List String) × List Profile
  | c, [] => (c, [], [])
  | c, b :: bs =>
      let r1 := processBatch oracle c b
      let r2 := profileFansGo oracle r1.1 bs
      (r2.1, r1.2.1 ++ r2.2.1, r1.2.2 ++ r2.2.2)

/-- `profile_fans`, from the per-fan texts onward: slice the fan list
into `BATCH_SIZE` batches and run the batch loop.  (Upstream, the
source builds one fan per `fan_model_id` group with its concatenated
`fan_message` text; the claims all start from that fan list.) -/
def profile_fans (oracle : Oracle) (c : Cache) (fans : List Fan) :
    Cache × List (List String) × List Profile :=
  profileFansGo oracle c (chunksOf BATCH_SIZE fans)

/-! ### The event data model (`segmentation.py`)

One row of the input event log.  `ts` is the parsed timestamp in seconds
(`pd.to_datetime`; unparseable timestamps are a fatal input error and are
outside the model).  `purchase` holds the raw column text, parsed by
`preprocess`.  `idx` is the row's pandas index label — its position in
the file at load time — which survives sorting and filtering and is what
`compute_features` does arithmetic on. -/

structure Raw where
  fan_id : String
  model_id : String
  ts : Int
  purchase : String
  is_system : Bool
  idx : Nat
deriving DecidableEq, Repr

/-- A preprocessed event: `purchase` parsed to a boolean. -/
structure Ev where
  fan_id : String
  model_id : String
  ts : Int
  purchase : Bool
  idx : Nat
deriving DecidableEq, Repr

/-- `df['fan_id'].astype(str) + "_" + df['model_id'].astype(str)`. -/
def fanKey (e : Ev) : String :=
  e.fan_id ++ "_" ++ e.model_id

/-- The purchase-column parse in `preprocess`:
`astype(str).str.upper().map({'TRUE': True, 'FALSE': False, '1': True,
'0': False}).fillna(False)`.  (Lean's `toUpper` is ASCII-only, which
covers the tokens the mapping recognizes.) -/
def parsePurchase (s : String) : Bool :=
  let u := String.mk (s.data.map Char.toUpper)
  u = "TRUE" || u = "1"

/-- Strict lexicographic order on character sequences by code point —
how pandas orders string keys in `sort_values`/`groupby`. -/
def strLtB : List Char → List Char → Bool
  | [], [] => false
  | [], _ :: _ => true
  | _ :: _, [] => false
  | a :: as, b :: bs =>
      if a.toNat < b.toNat then true
      else if b.toNat < a.toNat then false
      else strLtB as bs

/-- Strict code-point order on strings. -/
def strLt (a b : String) : Prop := strLtB a.data b.data = true

instance : DecidableRel strLt := fun a b => by
  unfold strLt
  infer_instance

/-- Reflexive code-point order on strings. -/
def strLe (a b : String) : Prop := strLt a b ∨ a = b

instance : DecidableRel strLe := fun a b => by
  unfold strLe
  infer_instance

/-- Sort key of `sort_values(by=['fan_model_id', 'timestamp'])`:
lexicographic on the derived key, then the timestamp. -/
def keyTsLe (a b : Ev) : Prop :=
  strLt (fanKey a) (fanKey b) ∨ (fanKey a = fanKey b ∧ a.ts ≤ b.ts)

instance : DecidableRel keyTsLe := fun a b => by
  unfold keyTsLe
  infer_instance

/-- Timestamp order (the per-group `sort_values(by="timestamp")`). -/
def tsLe (a b : Ev) : Prop := a.ts ≤ b.ts

instance : DecidableRel tsLe := fun a b => by
  unfold tsLe
  infer_instance

/-- One row after the purchase parse of `preprocess` (column renames
are implicit in the field names). -/
def toEv (r : Raw) : Ev :=
  { fan_id := r.fan_id, model_id := r.model_id, ts := r.ts,
    purchase := parsePurchase r.purchase, idx := r.idx }

/-- `preprocess(df)`: parse the purchase flags, drop system rows, and
sort by `(fan_model_id, timestamp)`.  Pandas' default `sort_values`
kind leaves the order of exact `(key, timestamp)` ties unspecified; the
model uses insertion sort, which agrees with it on tie-free data. -/
def preprocess (l : List Raw) : List Ev :=
  let kept := l.filter (fun r => !r.is_system)
  let parsed : List Ev := kept.map toEv
  List.insertionSort keyTsLe parsed

/-- The 4-hour inactivity threshold, in seconds. -/
def fourHours : Int := 14400

/-- The boundary test of `assign_conversations` between an event and its
predecessor in the same fan-model group:
`model_id != prev_model OR timestamp - prev_time > timedelta(hours=4)`. -/
def newConvo (prev e : Ev) : Bool :=
  decide (e.model_id ≠ prev.model_id) || decide (e.ts - prev.ts > fourHours)

/-- The conversation-numbering walk over the `(key, timestamp)`-sorted
event list.  This is `groupby('fan_model_id')` + `shift(1)` + `cumsum`
on a key-contiguous sorted frame: the first row of a group compares its
model to NaN, so its `new_convo` flag is true and the group's cumulative
sum starts at 1; within a group the flag is the boundary test. -/
def assignWalk (prev : Option Ev) (c : Nat) : List Ev → List (Ev × Nat)
  | [] => []
  | e :: rest =>
      match prev with
      | some p =>
          if fanKey p = fanKey e then
            let c' := if newConvo p e then c + 1 else c
            (e, c') :: assignWalk (some e) c' rest
          else
            (e, 1) :: assignWalk (some e) 1 rest
      | none => (e, 1) :: assignWalk (some e) 1 rest

/-- Per-event conversation numbers for a sorted event list. -/
def assignConvoNums (se : List Ev) : List (Ev × Nat) :=
  assignWalk none 0 se

/-- `assign_conversations`:
`conversation_id = fan_model_id + "_C" + convo_id.astype(str)`. -/
def assign_conversations (se : List Ev) : List (Ev × String) :=
  (assignConvoNums se).map (fun p => (p.1, fanKey p.1 ++ "_C" ++ toString p.2))

/-- The whole conversation pipeline of `segmentation.py`:
`assign_conversations(preprocess(df))`. -/
def pipelineConvs (l : List Raw) : List (Ev × String) :=
  assign_conversations (preprocess l)

/-- The `msgs_before_first_purchase` feature of `compute_features`, for
one conversation's rows `group` (in dataframe order):
`purchase_msgs.index[0] - group.index[0] if not purchase_msgs.empty
else len(group)` — arithmetic on the original pandas index labels. -/
def msgsBeforeFirstPurchase (group : List Ev) : Int :=
  let purchaseMsgs := group.filter (fun e => e.purchase)
  match purchaseMsgs.head?, group.head? with
  | some pm, some g0 => (pm.idx : Int) - (g0.idx : Int)
  | _, _ => (group.length : Int)

/-- The rows of one conversation, in pipeline (dataframe) order. -/
def convoRows (l : List Raw) (cid : String) : List Ev :=
  ((pipelineConvs l).filter (fun p => p.2 = cid)).map (fun p => p.1)

/-- What the spec says the feature is: how many of the conversation's
messages precede the first purchase event in the conversation's
(timestamp-sorted) row order. -/
def countBeforeFirstPurchase (group : List Ev) : Nat :=
  (group.takeWhile (fun e => !e.purchase)).length

/-! ### The stage assigner (`stage_segmentation.py`)

`assign_stages` iterates `df.groupby("fan_model_id")` — the groups are
the fan-model pairs, in ascending key order — re-sorts each group by
timestamp, and splits it on the first and last purchase timestamps of
the whole group. -/

/-- The rows of one fan-model group (the `groupby` selection). -/
def groupOf (d : List Ev) (k : String) : List Ev :=
  d.filter (fun e => fanKey e = k)

/-- The ascending, duplicate-free group keys of `groupby("fan_model_id")`. -/
def sortedKeys (d : List Ev) : List String :=
  List.insertionSort strLe ((d.map fanKey).dedup)

/-- The per-group timestamp sort `group.sort_values(by="timestamp")`
(pandas' default sort kind leaves tie order unspecified; the stage
labels below depend only on timestamps, so any timestamp sort gives the
same labels). -/
def sortG (g : List Ev) : List Ev :=
  List.insertionSort tsLe g

/-- `purchase_times`: the timestamps of the purchase rows of the sorted
group. -/
def purchaseTs (g : List Ev) : List Int :=
  ((sortG g).filter (fun e => e.purchase)).map (fun e => e.ts)

/-- `first_purchase = purchase_times[0]`. -/
def firstPurchase (g : List Ev) : Int := (purchaseTs g).headD 0

/-- `last_purchase = purchase_times[-1]`. -/
def lastPurchase (g : List Ev) : Int := (purchaseTs g).getLastD 0

/-- The `stage1` slice: rows with `timestamp <= first_purchase`. -/
def stage1Part (g : List Ev) : List (Ev × String) :=
  ((sortG g).filter (fun e => e.ts ≤ firstPurchase g)).map (fun e => (e, "stage_1"))

/-- The `stage2` slice: rows in `(first_purchase, last_purchase]`, or an
empty frame when the two coincide. -/
def stage2Part (g : List Ev) : List (Ev × String) :=
  if firstPurchase g ≠ lastPurchase g then
    ((sortG g).filter (fun e => firstPurchase g < e.ts ∧ e.ts ≤ lastPurchase g)).map
      (fun e => (e, "stage_2"))
  else []

/-- The `stage3` slice: rows with `timestamp > last_purchase`. -/
def stage3Part (g : List Ev) : List (Ev × String) :=
  ((sortG g).filter (fun e => lastPurchase g < e.ts)).map (fun e => (e, "stage_3"))

/-- Stage one fan-model group, exactly as the loop body of
`assign_stages` does: sort by timestamp, collect the purchase
timestamps, and either label everything `stage_1` (no purchases) or
concatenate the three slices, the `stage_2` and `stage_3` ones only
when non-empty (`if not stageN.empty`). -/
def assignStagesGroup (g : List Ev) : List (Ev × String) :=
  if (purchaseTs g).isEmpty then (sortG g).map (fun e => (e, "stage_1"))
  else
    stage1Part g ++ (if (stage2Part g).isEmpty then [] else stage2Part g) ++
      (if (stage3Part g).isEmpty then [] else stage3Part g)

/-- `assign_stages(df)`: concatenate the staged groups in group-key
order. -/
def assign_stages (d : List Ev) : List (Ev × String) :=
  (sortedKeys d).flatMap (fun k => assignStagesGroup (groupOf d k))

/-- The stage `assign_stages` gives an event (`none` when the event is
not in the input). -/
def stageOf (d : List Ev) (e : Ev) : Option String :=
  ((assign_stages d).find? (fun p => p.1 = e)).map (fun p => p.2)

/-- Same, within a single group's staging. -/
def stageOfGroup (g : List Ev) (e : Ev) : Option String :=
  ((assignStagesGroup g).find? (fun p => p.1 = e)).map (fun p => p.2)

/-- The label the spec's stage rule gives an event, given the first and
last purchase timestamps. -/
def ruleLabel (first last : Int) (e : Ev) : String :=
  if e.ts ≤ first then "stage_1"
  else if e.ts ≤ last then "stage_2"
  else "stage_3"

/-- The events of the conversation a given event belongs to (under the
segmentation pipeline): the rows sharing its conversation id. -/
def conversationEventsOf (l : List Raw) (e : Ev) : List Ev :=
  match (pipelineConvs l).find? (fun p => p.1 = e) with
  | some p => convoRows l p.2
  | none => []

/-- The number of distinct conversations an event stream is split into. -/
def convCount (se : List Ev) : Nat :=
  ((assignConvoNums se).map (fun p => p.2)).dedup.length

/-! ### Helper lemmas: the conversation-numbering walk -/

/-- The relation between consecutive rows of the numbering walk's
output: entering a new fan-model group resets the counter to 1, and
within a group the counter steps by the boundary test. -/
def convStep (x y : Ev × Nat) : Prop :=
  (fanKey y.1 ≠ fanKey x.1 → y.2 = 1) ∧
  (fanKey y.1 = fanKey x.1 → y.2 = if newConvo x.1 y.1 then x.2 + 1 else x.2)

theorem assignWalk_cons_same (p e : Ev) (c : Nat) (rest : List Ev)
    (hk : fanKey p = fanKey e) :
    assignWalk (some p) c (e :: rest) =
      (e, if newConvo p e then c + 1 else c) ::
        assignWalk (some e) (if newConvo p e then c + 1 else c) rest := by
  simp [assignWalk, hk]

theorem assignWalk_cons_diff (p e : Ev) (c : Nat) (rest : List Ev)
    (hk : ¬ fanKey p = fanKey e) :
    assignWalk (some p) c (e :: rest) =
      (e, 1) :: assignWalk (some e) 1 rest := by
  simp [assignWalk, hk]

theorem assignWalk_chain : ∀ (rest : List Ev) (p : Ev) (c : Nat),
    List.Chain' convStep ((p, c) :: assignWalk (some p) c rest) := by
  intro rest
  induction rest with
  | nil => intro p c; simp [assignWalk]
  | cons e rest ih =>
      intro p c
      by_cases hk : fanKey p = fanKey e
      · rw [assignWalk_cons_same p e c rest hk]
        exact List.chain'_cons.mpr
          ⟨⟨fun hne => absurd hk.symm hne, fun _ => rfl⟩, ih e _⟩
      · rw [assignWalk_cons_diff p e c rest hk]
        exact List.chain'_cons.mpr
          ⟨⟨fun _ => rfl, fun he => absurd he.symm hk⟩, ih e 1⟩

theorem convNums_chain (se : List Ev) :
    List.Chain' convStep (assignConvoNums se) := by
  cases se with
  | nil => simp [assignConvoNums, assignWalk]
  | cons a t => exact assignWalk_chain t a 1

theorem convNums_head (se : List Ev) (e : Ev) (c : Nat)
    (h : (assignConvoNums se).head? = some (e, c)) : c = 1 := by
  cases se with
  | nil => cases h
  | cons a t =>
      have : assignConvoNums (a :: t) = (a, 1) :: assignWalk (some a) 1 t := rfl
      rw [this] at h
      cases h
      rfl

theorem chain'_rel_of_eq_append {α : Type} {r : α → α → Prop} :
    ∀ (l1 : List α) {l : List α} (x y : α) (l2 : List α),
      List.Chain' r l → l = l1 ++ x :: y :: l2 → r x y := by
  intro l1
  induction l1 with
  | nil =>
      intro l x y l2 hc he
      subst he
      exact (List.chain'_cons.mp hc).1
  | cons a t ih =>
      intro l x y l2 hc he
      subst he
      exact ih x y l2 (List.Chain'.tail hc) rfl

/-! ### Claims C6 and C7: conversation numbering and boundaries -/

/-- Concrete one-row log used to refute C6's `_C0` numbering. -/
def rawC6 : Raw := ⟨"a", "m", 0, "FALSE", false, 0⟩

/-- C6 (counterexample): the first event of a fan-model group does not
get conversation id `fan_model_id + "_C0"`: on a one-event log the code
produces `a_m_C1`, because the first row of a group compares its model
to a missing predecessor, so its `new_convo` flag is true and the
cumulative sum starts at 1, not 0. -/
theorem claim_C6_counterexample :
    pipelineConvs [rawC6] = [(⟨"a", "m", 0, false, 0⟩, "a_m_C1")] ∧
      "a_m_C1" ≠ "a_m_C0" := by decide

/-- C6 (amended): conversation sequence numbers are assigned by a
per-group counter starting at 1: the first event of a group belongs to
conversation 1 (so its conversation id is `fan_model_id + "_C1"`), the
counter resets to 1 whenever the walk enters a new fan-model group, and
it increments by exactly one at each conversation boundary within a
group. -/
theorem claim_C6_amended (se : List Ev) :
    (∀ e c, (assignConvoNums se).head? = some (e, c) → c = 1) ∧
    List.Chain' convStep (assignConvoNums se) ∧
    assign_conversations se =
      (assignConvoNums se).map
        (fun p => (p.1, fanKey p.1 ++ "_C" ++ toString p.2)) :=
  ⟨convNums_head se, convNums_chain se, rfl⟩

theorem claim_C6_amended_witness :
    (assignConvoNums [(⟨"a", "m", 0, false, 0⟩ : Ev)]).head? =
        some (⟨"a", "m", 0, false, 0⟩, 1) ∧ (1 : Nat) = 1 :=
  ⟨by decide,
   (claim_C6_amended [⟨"a", "m", 0, false, 0⟩]).1 ⟨"a", "m", 0, false, 0⟩ 1
     (by decide)⟩

/-- C7 (confirmed): between consecutive rows of the same fan-model
group, the conversation number changes exactly when the model differs
or the time gap strictly exceeds 4 hours; concretely, two events 5
hours apart form 2 conversations, 3 hours apart 1 conversation, and
exactly 4 hours apart 1 conversation. -/
theorem claim_C7 :
    (∀ (se : List Ev) (l1 l2 : List (Ev × Nat)) (x y : Ev × Nat),
        assignConvoNums se = l1 ++ x :: y :: l2 →
        fanKey y.1 = fanKey x.1 →
        (y.2 ≠ x.2 ↔
          (y.1.model_id ≠ x.1.model_id ∨ y.1.ts - x.1.ts > fourHours)))
    ∧ convCount [⟨"a", "m", 0, false, 0⟩, ⟨"a", "m", 18000, false, 1⟩] = 2
    ∧ convCount [⟨"a", "m", 0, false, 0⟩, ⟨"a", "m", 10800, false, 1⟩] = 1
    ∧ convCount [⟨"a", "m", 0, false, 0⟩, ⟨"a", "m", 14400, false, 1⟩] = 1 := by
  refine ⟨?_, by decide, by decide, by decide⟩
  intro se l1 l2 x y heq hkey
  have hstep : convStep x y :=
    chain'_rel_of_eq_append l1 x y l2 (convNums_chain se) heq
  have hyval := hstep.2 hkey
  have hbool : (newConvo x.1 y.1 = true) ↔
      (y.1.model_id ≠ x.1.model_id ∨ y.1.ts - x.1.ts > fourHours) := by
    simp [newConvo]
  by_cases hb : newConvo x.1 y.1 = true
  · rw [if_pos hb] at hyval
    constructor
    · intro _; exact hbool.mp hb
    · intro _; omega
  · rw [if_neg hb] at hyval
    constructor
    · intro hne; exact absurd hyval hne
    · intro hcond; exact absurd (hbool.mpr hcond) hb

/-! ### Helper lemmas: stage assignment is keyed on the fan-model group -/

theorem mem_sortG {g : List Ev} {x : Ev} (h : x ∈ sortG g) : x ∈ g :=
  (List.perm_insertionSort tsLe g).subset h

theorem mem_fst_assignStagesGroup {g : List Ev} {q : Ev × String}
    (h : q ∈ assignStagesGroup g) : q.1 ∈ g := by
  unfold assignStagesGroup at h
  split at h
  · rcases List.mem_map.mp h with ⟨e, he, hq⟩
    cases hq
    exact mem_sortG he
  · rcases List.mem_append.mp h with h12 | h3
    · rcases List.mem_append.mp h12 with h1 | h2
      · rcases List.mem_map.mp h1 with ⟨e, he, hq⟩
        cases hq
        exact mem_sortG (List.mem_filter.mp he).1
      · split at h2
        · cases h2
        · unfold stage2Part at h2
          split at h2
          · rcases List.mem_map.mp h2 with ⟨e, he, hq⟩
            cases hq
            exact mem_sortG (List.mem_filter.mp he).1
          · cases h2
    · split at h3
      · cases h3
      · rcases List.mem_map.mp h3 with ⟨e, he, hq⟩
        cases hq
        exact mem_sortG (List.mem_filter.mp he).1

theorem mem_sortedKeys_of_mem {d : List Ev} {x : Ev} (hx : x ∈ d) :
    fanKey x ∈ sortedKeys d :=
  (List.perm_insertionSort _ _).mem_iff.mpr
    (List.mem_dedup.mpr (List.mem_map_of_mem fanKey hx))

theorem groupOf_eq_nil_of_not_mem_keys {d : List Ev} {k : String}
    (h : k ∉ sortedKeys d) : groupOf d k = [] := by
  rcases hgo : groupOf d k with _ | ⟨x, t⟩
  · rfl
  · exfalso
    have hx : x ∈ groupOf d k := by
      rw [hgo]
      exact List.mem_cons_self x t
    have hmf := List.mem_filter.mp hx
    have hk : fanKey x = k := of_decide_eq_true hmf.2
    exact h (hk ▸ mem_sortedKeys_of_mem hmf.1)

theorem find?_stages_flatMap (d : List Ev) (e : Ev) (ks : List String) :
    ((ks.flatMap (fun k => assignStagesGroup (groupOf d k))).find?
        (fun p => p.1 = e)) =
      (if fanKey e ∈ ks then
        (assignStagesGroup (groupOf d (fanKey e))).find? (fun p => p.1 = e)
       else none) := by
  induction ks with
  | nil => simp
  | cons k ks ih =>
      rw [List.flatMap_cons, List.find?_append, ih]
      by_cases hk : k = fanKey e
      · rw [hk, if_pos (List.mem_cons_self _ _)]
        by_cases hm : fanKey e ∈ ks
        · rw [if_pos hm]
          cases List.find? (fun p => decide (p.1 = e))
              (assignStagesGroup (groupOf d (fanKey e))) <;> rfl
        · rw [if_neg hm]
          cases List.find? (fun p => decide (p.1 = e))
              (assignStagesGroup (groupOf d (fanKey e))) <;> rfl
      · have hnone : (assignStagesGroup (groupOf d k)).find?
            (fun p => decide (p.1 = e)) = none := by
          rw [List.find?_eq_none]
          intro q hq hpe
          have h1 : q.1 ∈ groupOf d k := mem_fst_assignStagesGroup hq
          have h2 : fanKey q.1 = k := of_decide_eq_true (List.mem_filter.mp h1).2
          have h3 : q.1 = e := of_decide_eq_true hpe
          exact hk (h3 ▸ h2).symm
        have hiff : (fanKey e ∈ k :: ks) ↔ (fanKey e ∈ ks) := by
          constructor
          · intro hm
            rcases List.mem_cons.mp hm with hcase | hcase
            · exact absurd hcase.symm hk
            · exact hcase
          · exact fun hm => List.mem_cons_of_mem k hm
        by_cases hm : fanKey e ∈ ks
        · rw [if_pos hm, if_pos (hiff.mpr hm)]
          simp [hnone]
        · rw [if_neg hm, if_neg (fun hc => hm (hiff.mp hc))]
          simp [hnone]

theorem stageOf_eq_group (d : List Ev) (e : Ev) :
    stageOf d e = stageOfGroup (groupOf d (fanKey e)) e := by
  unfold stageOf assign_stages stageOfGroup
  rw [find?_stages_flatMap]
  by_cases hmem : fanKey e ∈ sortedKeys d
  · rw [if_pos hmem]
  · rw [if_neg hmem, groupOf_eq_nil_of_not_mem_keys hmem]
    rfl

/-! ### Claim C1: what determines an event's stage -/

/-- The two logs of the C1 counterexample: the same purchase-free
conversation `[e2]` exists in both, alone in `d2C1` and after a
purchase conversation in `d1C1`. -/
def e1C1 : Ev := ⟨"a", "m", 0, true, 0⟩

def e2C1 : Ev := ⟨"a", "m", 18000, false, 1⟩

def d1C1raw : List Raw := [⟨"a", "m", 0, "TRUE", false, 0⟩, ⟨"a", "m", 18000, "FALSE", false, 1⟩]

def d2C1raw : List Raw := [⟨"a", "m", 18000, "FALSE", false, 1⟩]

/-- C1 (counterexample): an event's stage is not determined by the
purchase events of its own conversation.  Event `e2C1` sits 5 hours
after a purchase, so segmentation puts it alone in a purchase-free
conversation in both logs (`conversationEventsOf` is `[e2C1]` in both),
yet `assign_stages` — which pools purchases across the whole fan-model
pair — labels it `stage_3` in the first log and `stage_1` in the
second. -/
theorem claim_C1_counterexample :
    conversationEventsOf d1C1raw e2C1 = [e2C1] ∧
    conversationEventsOf d2C1raw e2C1 = [e2C1] ∧
    stageOf [e1C1, e2C1] e2C1 = some "stage_3" ∧
    stageOf [e2C1] e2C1 = some "stage_1" := by decide

/-- C1 (amended): the stage of each event is determined by the purchase
events of the entire fan-model group the event belongs to —
`assign_stages` groups by `fan_model_id` and never consults conversation
boundaries: two logs that agree on an event's whole fan-model group give
the event the same stage. -/
theorem claim_C1_amended (d1 d2 : List Ev) (e : Ev)
    (h : groupOf d1 (fanKey e) = groupOf d2 (fanKey e)) :
    stageOf d1 e = stageOf d2 e := by
  rw [stageOf_eq_group, stageOf_eq_group, h]

/-- An event of a different fan-model pair, used to vary a log without
touching `e2C1`'s group. -/
def eOtherC1 : Ev := ⟨"b", "m", 0, false, 2⟩

theorem claim_C1_amended_witness :
    groupOf [e1C1, e2C1] (fanKey e2C1) =
        groupOf [e1C1, eOtherC1, e2C1] (fanKey e2C1) ∧
      stageOf [e1C1, e2C1] e2C1 = stageOf [e1C1, eOtherC1, e2C1] e2C1 :=
  ⟨by decide,
   claim_C1_amended [e1C1, e2C1] [e1C1, eOtherC1, e2C1] e2C1 (by decide)⟩

theorem claim_C7_witness :
    assignConvoNums [(⟨"a", "m", 0, false, 0⟩ : Ev), ⟨"a", "m", 18000, false, 1⟩] =
        [] ++ (⟨"a", "m", 0, false, 0⟩, 1) :: (⟨"a", "m", 18000, false, 1⟩, 2) :: [] ∧
      fanKey (⟨"a", "m", 18000, false, 1⟩ : Ev) = fanKey (⟨"a", "m", 0, false, 0⟩ : Ev) ∧
      ((2 : Nat) ≠ 1 ↔
        ((⟨"a", "m", 18000, false, 1⟩ : Ev).model_id ≠ (⟨"a", "m", 0, false, 0⟩ : Ev).model_id ∨
          (⟨"a", "m", 18000, false, 1⟩ : Ev).ts - (⟨"a", "m", 0, false, 0⟩ : Ev).ts > fourHours)) :=
  ⟨by decide, by decide,
   claim_C7.1 [⟨"a", "m", 0, false, 0⟩, ⟨"a", "m", 18000, false, 1⟩] [] []
     (⟨"a", "m", 0, false, 0⟩, 1) (⟨"a", "m", 18000, false, 1⟩, 2)
     (by decide) (by decide)⟩

/-! ### Claim C9: the `messages before first purchase` feature -/

/-- C9's failing input: a purchase at `t = 1` loaded as row 0 and a
plain message at `t = 0` loaded as row 1 (one conversation, gap 1s). -/
def q1C9 : Raw := ⟨"a", "m", 1, "TRUE", false, 0⟩

def q2C9 : Raw := ⟨"a", "m", 0, "FALSE", false, 1⟩

/-- C9 (code bug): `compute_features` computes
`purchase_msgs.index[0] - group.index[0]`, a difference of original
pandas index labels, not a count of rows.  On a log whose rows arrive
out of timestamp order the conversation's rows keep their load-time
labels, so the "count" comes out as `0 - 1 = -1`, while the number of
messages before the first purchase in the conversation's timestamp
order is 1. -/
theorem claim_C9_code_bug :
    msgsBeforeFirstPurchase (convoRows [q1C9, q2C9] "a_m_C1") = -1 ∧
      countBeforeFirstPurchase (convoRows [q1C9, q2C9] "a_m_C1") = 1 ∧
      (-1 : Int) ≠ (1 : Int) := by decide

/-! ### Helper lemmas: the batch partition of `profile_fans` -/

theorem partitionBatch_misses (c : Cache) (b : List Fan) :
    (partitionBatch c b).2 = b.filter (fun f => !(isHit (c (get_hash f.2)))) := by
  induction b with
  | nil => rfl
  | cons f rest ih =>
      simp only [partitionBatch, List.filter_cons]
      by_cases h : isHit (c (get_hash f.2))
      · simp [h, ih]
      · simp [h, ih]

theorem partitionBatch_hits (c : Cache) (b : List Fan) :
    (partitionBatch c b).1 =
      (b.filter (fun f => isHit (c (get_hash f.2)))).map
        (fun f => setField (normalize_keys ((c (get_hash f.2)).getD []))
          "fan_model_id" f.1) := by
  induction b with
  | nil => rfl
  | cons f rest ih =>
      simp only [partitionBatch, List.filter_cons]
      by_cases h : isHit (c (get_hash f.2))
      · simp [h, ih]
      · simp [h, ih]

/-! ### Claim C3: one external call per batch, covering the misses -/

theorem processBatch_calls_eq (oracle : Oracle) (c : Cache) (batch : List Fan) :
    (processBatch oracle c batch).2.1 =
      (if (batch.filter (fun f => !(isHit (c (get_hash f.2))))).isEmpty then []
       else [(batch.filter (fun f => !(isHit (c (get_hash f.2))))).map
          (fun f => f.2)]) := by
  unfold processBatch
  rw [← partitionBatch_misses]
  by_cases hq : (partitionBatch c batch).2.isEmpty
  · simp [hq]
  · simp only [hq, Bool.false_eq_true, if_false]
    cases call_llm_batch oracle ((partitionBatch c batch).2.map (fun f => f.2)) <;>
      rfl

/-- C3 (confirmed): per batch, the external calls issued are exactly:
none when every fan's text is a cache hit, and one single call — whose
submitted transcripts are exactly the uncached fans' texts, in batch
order — as soon as at least one fan misses. -/
theorem claim_C3 (oracle : Oracle) (c : Cache) (batch : List Fan) :
    (processBatch oracle c batch).2.1 =
      (if (batch.filter (fun f => !(isHit (c (get_hash f.2))))).isEmpty then []
       else [(batch.filter (fun f => !(isHit (c (get_hash f.2))))).map
          (fun f => f.2)]) :=
  processBatch_calls_eq oracle c batch

/-! ### Helper lemmas: profiles and cache writes -/

theorem lookup_setField (p : Profile) (k v : String) :
    (setField p k v).lookup k = some v := by
  induction p with
  | nil => simp [setField]
  | cons kv rest ih =>
      by_cases h : kv.1 = k
      · simp [setField, h]
      · simp only [setField, h, if_false]
        rw [List.lookup_cons]
        have : (k == kv.1) = false := by
          simp only [beq_eq_false_iff_ne, ne_eq]
          exact fun hc => h hc.symm
        rw [this]
        exact ih

theorem idOf_setField (p : Profile) (v : String) :
    idOf (setField p "fan_model_id" v) = some v :=
  lookup_setField p "fan_model_id" v

theorem setField_ne_nil (p : Profile) (k v : String) :
    setField p k v ≠ [] := by
  cases p with
  | nil => simp [setField]
  | cons kv rest =>
      simp only [setField]
      by_cases h : kv.1 = k
      · simp [h]
      · simp [h]

theorem partitionBatch_ids_perm (c : Cache) (b : List Fan) :
    ((partitionBatch c b).1.map idOf ++
        (partitionBatch c b).2.map (fun f => some f.1)).Perm
      (b.map (fun f => some f.1)) := by
  induction b with
  | nil => simp [partitionBatch]
  | cons f rest ih =>
      simp only [partitionBatch, List.map_cons]
      by_cases h : isHit (c (get_hash f.2))
      · simp only [h, if_true, List.map_cons, List.cons_append]
        rw [idOf_setField]
        exact List.Perm.cons _ ih
      · simp only [h, Bool.false_eq_true, if_false, List.map_cons]
        exact List.perm_middle.trans (List.Perm.cons _ ih)

theorem call_llm_batch_length (oracle : Oracle) (texts : List String)
    (ps : List Profile)
    (hlen : ∀ ts qs, oracle ts = .ok (some qs) → ts.length ≤ qs.length)
    (h : call_llm_batch oracle texts = .ok ps) : texts.length ≤ ps.length := by
  unfold call_llm_batch at h
  cases ho : oracle texts with
  | error e => rw [ho] at h; cases h
  | ok o =>
      cases o with
      | none => rw [ho] at h; cases h; simp
      | some qs => rw [ho] at h; cases h; exact hlen _ _ ho

theorem tagged_ids (nps : List Profile) (ms : List Fan)
    (h : ms.length ≤ nps.length) :
    List.map idOf (List.map (fun pr => pr.1) ((nps.zip ms).map
        (fun pf => (setField (normalize_keys pf.1) "fan_model_id" pf.2.1,
          get_hash pf.2.2)))) =
      ms.map (fun f => some f.1) := by
  induction nps generalizing ms with
  | nil =>
      cases ms with
      | nil => rfl
      | cons m ms => simp at h
  | cons p nps ih =>
      cases ms with
      | nil => rfl
      | cons m ms =>
          simp only [List.zip_cons_cons, List.map_cons, idOf_setField]
          rw [ih ms (by simpa using h)]

theorem processBatch_ids_perm (oracle : Oracle) (c : Cache) (b : List Fan)
    (hlen : ∀ ts qs, oracle ts = .ok (some qs) → ts.length ≤ qs.length) :
    ((processBatch oracle c b).2.2.map idOf).Perm (b.map (fun f => some f.1)) := by
  have hperm := partitionBatch_ids_perm c b
  unfold processBatch
  by_cases hq : (partitionBatch c b).2.isEmpty
  · simp only [hq, if_true]
    have h2 : (partitionBatch c b).2 = [] := List.isEmpty_iff.mp hq
    rw [h2] at hperm
    simpa using hperm
  · simp only [hq, Bool.false_eq_true, if_false]
    cases hc : call_llm_batch oracle ((partitionBatch c b).2.map (fun f => f.2)) with
    | error e =>
        simp only [List.map_append, List.map_map]
        have heq : (idOf ∘ fun f : Fan => ([("fan_model_id", f.1)] : Profile)) =
            (fun f : Fan => some f.1) := funext fun f => rfl
        rw [heq]
        exact hperm
    | ok newProfiles =>
        have hlen2 : (partitionBatch c b).2.length ≤ newProfiles.length := by
          have := call_llm_batch_length oracle _ newProfiles hlen hc
          simpa using this
        rw [List.map_append, tagged_ids newProfiles (partitionBatch c b).2 hlen2]
        exact hperm

theorem chunksOfFuel_flatten (n : Nat) :
    ∀ (fuel : Nat) (l : List α), l.length ≤ fuel →
      (chunksOfFuel n fuel l).flatten = l := by
  intro fuel
  induction fuel with
  | zero =>
      intro l hl
      cases l with
      | nil => rfl
      | cons a t => simp at hl
  | succ fuel ih =>
      intro l hl
      cases l with
      | nil => rfl
      | cons a t =>
          simp only [chunksOfFuel, List.flatten_cons]
          rw [ih (t.drop (n - 1)) ?_]
          · rw [List.cons_append, List.take_append_drop]
          · have := List.length_drop (n - 1) t
            simp only [List.length_cons] at hl
            omega

theorem chunksOf_flatten (n : Nat) (l : List α) :
    (chunksOf n l).flatten = l :=
  chunksOfFuel_flatten n l.length l (Nat.le_refl _)

theorem profileFansGo_ids_perm (oracle : Oracle)
    (hlen : ∀ ts qs, oracle ts = .ok (some qs) → ts.length ≤ qs.length) :
    ∀ (bs : List (List Fan)) (c : Cache),
      ((profileFansGo oracle c bs).2.2.map idOf).Perm
        (bs.flatten.map (fun f => some f.1)) := by
  intro bs
  induction bs with
  | nil => intro c; simp [profileFansGo]
  | cons b bs ih =>
      intro c
      simp only [profileFansGo, List.flatten_cons, List.map_append]
      exact ((processBatch_ids_perm oracle c b hlen).append
        (ih (processBatch oracle c b).1))

theorem profile_fans_ids_perm (oracle : Oracle) (c : Cache) (fans : List Fan)
    (hlen : ∀ ts qs, oracle ts = .ok (some qs) → ts.length ≤ qs.length) :
    ((profile_fans oracle c fans).2.2.map idOf).Perm
      (fans.map (fun f => some f.1)) := by
  have h := profileFansGo_ids_perm oracle hlen (chunksOf BATCH_SIZE fans) c
  rw [chunksOf_flatten BATCH_SIZE fans] at h
  exact h

/-- The profile a cache hit is served as (`normalize_keys` then the
`fan_model_id` tag). -/
def serveCached (c : Cache) (f : Fan) : Profile :=
  setField (normalize_keys ((c (get_hash f.2)).getD [])) "fan_model_id" f.1

/-- When the batch's external call raises or its response has no
parseable array, the batch's output is the cached profiles followed by
one `{"fan_model_id": id}` placeholder per uncached fan. -/
theorem processBatch_failure_shape (oracle : Oracle) (c : Cache) (b : List Fan)
    (hfail : oracle ((b.filter (fun f => !(isHit (c (get_hash f.2))))).map
        (fun f => f.2)) = .error () ∨
      oracle ((b.filter (fun f => !(isHit (c (get_hash f.2))))).map
        (fun f => f.2)) = .ok none) :
    (processBatch oracle c b).2.2 =
      (b.filter (fun f => isHit (c (get_hash f.2)))).map (serveCached c) ++
        (b.filter (fun f => !(isHit (c (get_hash f.2))))).map
          (fun f => [("fan_model_id", f.1)]) := by
  have hh := partitionBatch_hits c b
  have hm := partitionBatch_misses c b
  unfold processBatch
  by_cases hq : (partitionBatch c b).2.isEmpty
  · have h2 : (partitionBatch c b).2 = [] := List.isEmpty_iff.mp hq
    simp only [hq, if_true]
    rw [hh, ← hm, h2]
    simp [serveCached]
  · simp only [hq, Bool.false_eq_true, if_false]
    rw [← hm] at hfail
    unfold call_llm_batch
    rcases hfail with hf | hf
    · rw [hf]
      rw [hh, hm]
      rfl
    · rw [hf]
      dsimp only
      have hzip : List.map (fun pr => pr.1)
            (List.map (fun pf => (setField (normalize_keys pf.1) "fan_model_id"
                pf.2.1, get_hash pf.2.2))
              ((List.map (fun _ => ([] : Profile))
                (List.map (fun f => f.2) (partitionBatch c b).2)).zip
                (partitionBatch c b).2)) =
          (partitionBatch c b).2.map
            (fun f => ([("fan_model_id", f.1)] : Profile)) := by
        generalize (partitionBatch c b).2 = ms
        induction ms with
        | nil => rfl
        | cons m ms ihm =>
            simp only [List.map_cons, List.zip_cons_cons]
            rw [ihm]
            rfl
      rw [hzip, hh, hm]
      rfl

/-! ### Claim C4: placeholders on failure and output cardinality -/

/-- The short-array oracle of the C4 counterexample: the call parses to
a well-formed but empty JSON array. -/
def oracleShortC4 : Oracle := fun _ => .ok (some [])

/-- C4 (counterexample): output cardinality is not guaranteed
"regardless of failures".  When the response parses as an array with
fewer objects than the uncached fans — here an empty array for one
uncached fan — the positional `zip` silently truncates and the fan is
dropped: the run over one fan produces zero profiles. -/
theorem claim_C4_counterexample :
    (profile_fans oracleShortC4 emptyCache [(("f1_m1", "hi") : Fan)]).2.2 = [] ∧
      [(("f1_m1", "hi") : Fan)].length = 1 := by
  constructor
  · rfl
  · rfl

/-- C4 (amended): when a batch's external call raises or its response
cannot be parsed as an array, each uncached fan of that batch receives
a placeholder profile whose only field is `fan_model_id`, and
processing continues.  Provided every response that does parse as an
array contains at least one profile object per submitted fan, the
output holds exactly one profile per input fan (no duplicates, no
drops); a parsed array shorter than the uncached fan list instead drops
the unmatched fans. -/
theorem claim_C4_amended (oracle : Oracle) (c : Cache) (fans : List Fan)
    (hlen : ∀ ts qs, oracle ts = .ok (some qs) → ts.length ≤ qs.length) :
    ((profile_fans oracle c fans).2.2.map idOf).Perm
        (fans.map (fun f => some f.1)) ∧
      (∀ (c' : Cache) (b : List Fan),
        (oracle ((b.filter (fun f => !(isHit (c' (get_hash f.2))))).map
            (fun f => f.2)) = .error () ∨
          oracle ((b.filter (fun f => !(isHit (c' (get_hash f.2))))).map
            (fun f => f.2)) = .ok none) →
        (processBatch oracle c' b).2.2 =
          (b.filter (fun f => isHit (c' (get_hash f.2)))).map (serveCached c') ++
            (b.filter (fun f => !(isHit (c' (get_hash f.2))))).map
              (fun f => [("fan_model_id", f.1)])) :=
  ⟨profile_fans_ids_perm oracle c fans hlen,
   fun c' b hfail => processBatch_failure_shape oracle c' b hfail⟩

/-- The always-failing oracle used by the C4 and C10 witnesses. -/
def oracleErr : Oracle := fun _ => .error ()

theorem claim_C4_amended_witness :
    (∀ ts qs, oracleErr ts = .ok (some qs) → ts.length ≤ qs.length) ∧
      (((profile_fans oracleErr emptyCache [(("f1_m1", "hi") : Fan)]).2.2.map
          idOf).Perm ([(("f1_m1", "hi") : Fan)].map (fun f => some f.1)) ∧
        (∀ (c' : Cache) (b : List Fan),
          (oracleErr ((b.filter (fun f => !(isHit (c' (get_hash f.2))))).map
              (fun f => f.2)) = .error () ∨
            oracleErr ((b.filter (fun f => !(isHit (c' (get_hash f.2))))).map
              (fun f => f.2)) = .ok none) →
          (processBatch oracleErr c' b).2.2 =
            (b.filter (fun f => isHit (c' (get_hash f.2)))).map (serveCached c') ++
              (b.filter (fun f => !(isHit (c' (get_hash f.2))))).map
                (fun f => [("fan_model_id", f.1)]))) :=
  ⟨(fun ts qs h => by cases h),
   claim_C4_amended oracleErr emptyCache [("f1_m1", "hi")]
     (fun ts qs h => by cases h)⟩

/-! ### Helper lemmas: cache persistence of placeholders (C10) -/

theorem foldl_saveCache_not_mem :
    ∀ (l : List (Profile × String)) (c : Cache) (h : String),
      (∀ pr ∈ l, pr.2 ≠ h) →
      (l.foldl (fun cc pr => saveCache cc pr.2 pr.1) c) h = c h := by
  intro l
  induction l with
  | nil => intro c h _; rfl
  | cons pr l ih =>
      intro c h hall
      simp only [List.foldl_cons]
      rw [ih _ h (fun q hq => hall q (List.mem_cons_of_mem _ hq))]
      unfold saveCache
      rw [if_neg (fun he => hall pr (List.mem_cons_self _ _) he.symm)]

theorem foldl_saveCache_mem :
    ∀ (l : List (Profile × String)) (c : Cache) (h : String),
      (∃ pr ∈ l, pr.2 = h) →
      ∃ pr ∈ l, (l.foldl (fun cc pr => saveCache cc pr.2 pr.1) c) h = some pr.1 := by
  intro l
  induction l with
  | nil => intro c h hex; rcases hex with ⟨pr, hpr, _⟩; cases hpr
  | cons pr0 l ih =>
      intro c h hex
      by_cases hrest : ∃ pr ∈ l, pr.2 = h
      · rcases ih (saveCache c pr0.2 pr0.1) h hrest with ⟨pr, hpr, heq⟩
        exact ⟨pr, List.mem_cons_of_mem _ hpr, heq⟩
      · have hnot : ∀ pr ∈ l, pr.2 ≠ h := by
          intro q hq hqe
          exact hrest ⟨q, hq, hqe⟩
        have h0 : pr0.2 = h := by
          rcases hex with ⟨pr, hpr, hpre⟩
          rcases List.mem_cons.mp hpr with hc | hc
          · rw [← hc]; exact hpre
          · exact absurd hpre (hnot pr hc)
        refine ⟨pr0, List.mem_cons_self _ _, ?_⟩
        simp only [List.foldl_cons]
        rw [foldl_saveCache_not_mem l _ h hnot]
        unfold saveCache
        rw [if_pos h0.symm]

theorem foldl_saveCache_hit (l : List (Profile × String))
    (hl : ∀ pr ∈ l, pr.1 ≠ []) :
    ∀ (c : Cache) (h : String), isHit (c h) = true →
      isHit ((l.foldl (fun cc pr => saveCache cc pr.2 pr.1) c) h) = true := by
  induction l with
  | nil => intro c h hh; exact hh
  | cons pr l ih =>
      intro c h hh
      simp only [List.foldl_cons]
      apply ih (fun q hq => hl q (List.mem_cons_of_mem _ hq))
      unfold saveCache
      by_cases he : h = pr.2
      · rw [if_pos he]
        have hne := hl pr (List.mem_cons_self _ _)
        unfold isHit
        cases hp : pr.1 with
        | nil => exact absurd hp hne
        | cons a t => simp
      · rw [if_neg he]
        exact hh

theorem processBatch_hit_preserved (oracle : Oracle) (c : Cache) (b : List Fan)
    (h : String) (hh : isHit (c h) = true) :
    isHit ((processBatch oracle c b).1 h) = true := by
  unfold processBatch
  by_cases hq : (partitionBatch c b).2.isEmpty
  · simp only [hq, if_true]; exact hh
  · simp only [hq, Bool.false_eq_true, if_false]
    cases hc : call_llm_batch oracle ((partitionBatch c b).2.map (fun f => f.2)) with
    | error e => exact hh
    | ok nps =>
        apply foldl_saveCache_hit
        · intro pr hpr
          rcases List.mem_map.mp hpr with ⟨pf, _, hpf⟩
          rw [← hpf]
          exact setField_ne_nil _ _ _
        · exact hh

theorem hit_text_not_called (oracle : Oracle) (t : String) :
    ∀ (bs : List (List Fan)) (c : Cache), isHit (c (get_hash t)) = true →
      ∀ call ∈ (profileFansGo oracle c bs).2.1, t ∉ call := by
  intro bs
  induction bs with
  | nil => intro c _ call hc; cases hc
  | cons b bs ih =>
      intro c hh call hcall
      simp only [profileFansGo, List.mem_append] at hcall
      rcases hcall with h1 | h2
      · rw [processBatch_calls_eq oracle c b] at h1
        by_cases hq : (b.filter (fun f => !(isHit (c (get_hash f.2))))).isEmpty
        · rw [if_pos hq] at h1; cases h1
        · rw [if_neg hq] at h1
          rcases List.mem_singleton.mp h1 with rfl
          intro ht
          rcases List.mem_map.mp ht with ⟨f, hf, hft⟩
          have hmiss : (!(isHit (c (get_hash f.2)))) = true :=
            (List.mem_filter.mp hf).2
          rw [hft] at hmiss
          rw [hh] at hmiss
          cases hmiss
      · exact ih (processBatch oracle c b).1
          (processBatch_hit_preserved oracle c b _ hh) call h2

theorem profile_fans_hit_not_called (oracle : Oracle) (t : String)
    (c : Cache) (fans : List Fan) (hh : isHit (c (get_hash t)) = true) :
    ∀ call ∈ (profile_fans oracle c fans).2.1, t ∉ call :=
  hit_text_not_called oracle t (chunksOf BATCH_SIZE fans) c hh

theorem zip_const_tagged (ms : List Fan) :
    List.map (fun pf => (setField (normalize_keys pf.1) "fan_model_id" pf.2.1,
        get_hash pf.2.2))
      ((List.map (fun _ => ([] : Profile)) (List.map (fun f => f.2) ms)).zip ms) =
    ms.map (fun f => (([("fan_model_id", f.1)] : Profile), get_hash f.2)) := by
  induction ms with
  | nil => rfl
  | cons m ms ihm =>
      simp only [List.map_cons, List.zip_cons_cons]
      rw [ihm]
      rfl

theorem processBatch_cache_of_ok_none (oracle : Oracle) (c : Cache) (b : List Fan)
    (hf : oracle ((b.filter (fun f => !(isHit (c (get_hash f.2))))).map
        (fun f => f.2)) = .ok none) :
    (processBatch oracle c b).1 =
      ((b.filter (fun f => !(isHit (c (get_hash f.2))))).map
          (fun f => (([("fan_model_id", f.1)] : Profile), get_hash f.2))).foldl
        (fun cc pr => saveCache cc pr.2 pr.1) c := by
  have hm := partitionBatch_misses c b
  unfold processBatch
  rw [← hm] at hf
  by_cases hq : (partitionBatch c b).2.isEmpty
  · have h2 : (partitionBatch c b).2 = [] := List.isEmpty_iff.mp hq
    rw [h2] at hm
    simp only [hq, if_true]
    rw [← hm]
    rfl
  · simp only [hq, Bool.false_eq_true, if_false]
    unfold call_llm_batch
    rw [hf]
    dsimp only
    rw [zip_const_tagged, hm]

theorem processBatch_cache_of_error (oracle : Oracle) (c : Cache) (b : List Fan)
    (hf : oracle ((b.filter (fun f => !(isHit (c (get_hash f.2))))).map
        (fun f => f.2)) = .error ()) :
    (processBatch oracle c b).1 = c := by
  have hm := partitionBatch_misses c b
  unfold processBatch
  rw [← hm] at hf
  by_cases hq : (partitionBatch c b).2.isEmpty
  · simp only [hq, if_true]
  · simp only [hq, Bool.false_eq_true, if_false]
    unfold call_llm_batch
    rw [hf]

/-! ### Claim C10: parse-failure placeholders are cached, exceptions are not -/

/-- C10 (confirmed): when the response for a batch parses to no JSON
array (`.ok none`), the `{"fan_model_id": id}` placeholders built for
the uncached fans are persisted to the cache under each fan's text
hash, and — since a cached placeholder is a non-empty dict, hence a
cache hit — no later run ever submits that fan's text to the external
service again.  When the call itself raises (`.error`), the cache is
left untouched. -/
theorem claim_C10 (oracle : Oracle) (c : Cache) (b : List Fan) :
    (oracle ((b.filter (fun f => !(isHit (c (get_hash f.2))))).map
        (fun f => f.2)) = .ok none →
      (∀ f ∈ b.filter (fun f => !(isHit (c (get_hash f.2)))),
        ∃ id, (processBatch oracle c b).1 (get_hash f.2) =
          some [("fan_model_id", id)]) ∧
      (∀ f ∈ b.filter (fun f => !(isHit (c (get_hash f.2)))),
        ∀ (fans2 : List Fan) (call : List String),
          call ∈ (profile_fans oracle (processBatch oracle c b).1 fans2).2.1 →
          f.2 ∉ call)) ∧
    (oracle ((b.filter (fun f => !(isHit (c (get_hash f.2))))).map
        (fun f => f.2)) = .error () →
      (processBatch oracle c b).1 = c) := by
  constructor
  · intro hf
    have hcache : ∀ f ∈ b.filter (fun f => !(isHit (c (get_hash f.2)))),
        ∃ id, (processBatch oracle c b).1 (get_hash f.2) =
          some [("fan_model_id", id)] := by
      intro f hfm
      rw [processBatch_cache_of_ok_none oracle c b hf]
      have hex : ∃ pr ∈ (b.filter (fun f => !(isHit (c (get_hash f.2))))).map
          (fun f => (([("fan_model_id", f.1)] : Profile), get_hash f.2)),
          pr.2 = get_hash f.2 :=
        ⟨(([("fan_model_id", f.1)] : Profile), get_hash f.2),
          List.mem_map_of_mem _ hfm, rfl⟩
      rcases foldl_saveCache_mem _ c (get_hash f.2) hex with ⟨pr, hpr, heq⟩
      rcases List.mem_map.mp hpr with ⟨f', _, hpf⟩
      exact ⟨f'.1, by rw [heq, ← hpf]⟩
    refine ⟨hcache, ?_⟩
    intro f hfm fans2 call hcall
    rcases hcache f hfm with ⟨id, hid⟩
    have hhit : isHit ((processBatch oracle c b).1 (get_hash f.2)) = true := by
      rw [hid]
      rfl
    exact profile_fans_hit_not_called oracle f.2 _ fans2 hhit call hcall
  · exact processBatch_cache_of_error oracle c b

/-- The no-array oracle used by the C10 witness. -/
def oracleNoArr : Oracle := fun _ => .ok none

theorem claim_C10_witness :
    oracleNoArr (([(("f1_m1", "hi") : Fan)].filter
        (fun f => !(isHit (emptyCache (get_hash f.2))))).map (fun f => f.2)) =
      .ok none ∧
    (∃ id, (processBatch oracleNoArr emptyCache [(("f1_m1", "hi") : Fan)]).1
        (get_hash "hi") = some [("fan_model_id", id)]) :=
  ⟨rfl,
   ((claim_C10 oracleNoArr emptyCache [("f1_m1", "hi")]).1 rfl).1
     ("f1_m1", "hi") (by decide)⟩

/-! ### Claim C5: cache laws and key distinctness -/

theorem md5Nat_lt (s : String) : md5Nat s < 2 ^ 128 := by
  unfold md5Nat
  exact Nat.mod_lt _ (by decide)

/-- `n` copies of `a`: an infinite family of pairwise distinct texts. -/
def repStr (n : Nat) : String := String.mk (List.replicate n 'a')

theorem repStr_inj : Function.Injective repStr := by
  intro m n h
  have hdata : List.replicate m 'a' = List.replicate n 'a' := congrArg String.data h
  have hlen := congrArg List.length hdata
  simpa using hlen

/-- C5 (counterexample): it is not true that any two distinct texts get
distinct cache keys: `get_hash` is MD5, whose digests form a finite set
(`16^32` hex strings), while there are infinitely many texts, so some
two distinct texts share a key.  (The refutation is non-constructive —
it pigeonholes the infinite family `"", "a", "aa", ...` into the
`2^128` possible digests.) -/
theorem claim_C5_counterexample :
    ¬ (∀ t1 t2 : String, t1 ≠ t2 → get_hash t1 ≠ get_hash t2) := by
  intro hinj
  obtain ⟨m, n, hne, heq⟩ := Finite.exists_ne_map_eq_of_infinite
    (fun k : ℕ => (⟨md5Nat (repStr k), md5Nat_lt _⟩ : Fin (2 ^ 128)))
  have hmd : md5Nat (repStr m) = md5Nat (repStr n) := congrArg Fin.val heq
  have hhash : get_hash (repStr m) = get_hash (repStr n) := by
    unfold get_hash
    rw [hmd]
  exact hinj (repStr m) (repStr n) (fun h => hne (repStr_inj h)) hhash

set_option maxRecDepth 40000 in
/-- C5 (amended): `store` then `lookup` of the same text returns exactly
the stored (normalized) profile; `lookup` on an empty cache is absent;
storing a text whose hash differs leaves a text's lookup unchanged (so
a text is absent until a text with its hash is stored); and texts
differing only in whitespace — here `"a"` vs `"a "` — have distinct
keys, because the key is the MD5 of the exact text bytes with no
normalization.  Universal distinctness for all pairs of distinct texts
cannot hold, MD5 having finitely many digests. -/
theorem claim_C5_amended :
    (∀ (c : Cache) (t : String) (p : Profile), lookup (store c t p) t = some p) ∧
    (∀ t : String, lookup emptyCache t = none) ∧
    (∀ (c : Cache) (t t' : String) (p : Profile), get_hash t ≠ get_hash t' →
        lookup (store c t' p) t = lookup c t) ∧
    get_hash "a" ≠ get_hash "a " := by
  refine ⟨?_, ?_, ?_, ?_⟩
  · intro c t p
    unfold lookup store saveCache
    rw [if_pos rfl]
  · intro t
    rfl
  · intro c t t' p h
    unfold lookup store saveCache
    rw [if_neg h]
  · decide

set_option maxRecDepth 40000 in
theorem claim_C5_amended_witness :
    get_hash "a" ≠ get_hash "a " ∧
      lookup (store emptyCache "a " [("life_events", "x")]) "a" =
        lookup emptyCache "a" :=
  ⟨by decide,
   claim_C5_amended.2.2.1 emptyCache "a" "a " [("life_events", "x")] (by decide)⟩

/-! ### Helper lemmas: the per-group stage rule (C2) -/

theorem sortG_eq_of_sorted {g : List Ev} (hs : List.Sorted tsLe g) :
    sortG g = g :=
  List.Sorted.insertionSort_eq hs

theorem sorted_head_le_getLast {l : List Int}
    (hl : l.Sorted (fun a b : Int => a ≤ b)) {x y : Int}
    (hx : l.head? = some x) (hy : l.getLast? = some y) : x ≤ y := by
  cases l with
  | nil => cases hx
  | cons a t =>
      rw [List.head?_cons, Option.some.injEq] at hx
      subst hx
      have hne : (a :: t) ≠ [] := List.cons_ne_nil a t
      rw [List.getLast?_eq_getLast _ hne, Option.some.injEq] at hy
      subst hy
      rcases List.mem_cons.mp (List.getLast_mem hne) with h | h
      · rw [h]
      · exact List.rel_of_sorted_cons hl _ h

theorem purchaseTs_sorted {g : List Ev} (hs : List.Sorted tsLe g) :
    (purchaseTs g).Sorted (fun a b : Int => a ≤ b) := by
  unfold purchaseTs
  rw [sortG_eq_of_sorted hs]
  exact List.Pairwise.map _ (fun a b hab => hab) (List.Pairwise.filter _ hs)

theorem ite_isEmpty {α : Type} (l : List α) :
    (if l.isEmpty then ([] : List α) else l) = l := by
  cases l <;> rfl

theorem stage2Part_eq (g : List Ev) :
    stage2Part g =
      ((sortG g).filter
          (fun e => firstPurchase g < e.ts ∧ e.ts ≤ lastPurchase g)).map
        (fun e => (e, "stage_2")) := by
  unfold stage2Part
  by_cases hfl : firstPurchase g ≠ lastPurchase g
  · rw [if_pos hfl]
  · rw [if_neg hfl]
    push_neg at hfl
    symm
    rw [List.map_eq_nil_iff, List.filter_eq_nil_iff]
    intro e _ hdec
    have h2 : firstPurchase g < e.ts ∧ e.ts ≤ lastPurchase g :=
      of_decide_eq_true hdec
    rw [hfl] at h2
    omega

theorem assignStagesGroup_perm {g : List Ev} (hs : List.Sorted tsLe g)
    {ep el : Int} (hx : (purchaseTs g).head? = some ep)
    (hy : (purchaseTs g).getLast? = some el) :
    (assignStagesGroup g).Perm (g.map (fun e => (e, ruleLabel ep el e))) := by
  have hsg : sortG g = g := sortG_eq_of_sorted hs
  have hfl : ep ≤ el := sorted_head_le_getLast (purchaseTs_sorted hs) hx hy
  have hne : ¬ ((purchaseTs g).isEmpty = true) := by
    cases hpt : purchaseTs g with
    | nil => rw [hpt] at hx; cases hx
    | cons a t => simp [hpt]
  have hf : firstPurchase g = ep := by
    unfold firstPurchase
    rw [List.headD_eq_head?_getD, hx]
    rfl
  have hl : lastPurchase g = el := by
    unfold lastPurchase
    rw [List.getLastD_eq_getLast?, hy]
    rfl
  unfold assignStagesGroup
  rw [if_neg hne, ite_isEmpty, ite_isEmpty, stage2Part_eq]
  unfold stage1Part stage3Part
  rw [hsg, hf, hl]
  have h1 : (g.filter (fun e => decide (e.ts ≤ ep))).map
        (fun e => (e, "stage_1")) =
      (g.filter (fun e => decide (e.ts ≤ ep))).map
        (fun e => (e, ruleLabel ep el e)) := by
    apply List.map_congr_left
    intro e he
    have hts : e.ts ≤ ep := of_decide_eq_true (List.mem_filter.mp he).2
    unfold ruleLabel
    rw [if_pos hts]
  have h2 : (g.filter (fun e => decide (ep < e.ts ∧ e.ts ≤ el))).map
        (fun e => (e, "stage_2")) =
      (g.filter (fun e => decide (ep < e.ts ∧ e.ts ≤ el))).map
        (fun e => (e, ruleLabel ep el e)) := by
    apply List.map_congr_left
    intro e he
    have hts : ep < e.ts ∧ e.ts ≤ el :=
      of_decide_eq_true (List.mem_filter.mp he).2
    unfold ruleLabel
    rw [if_neg (by omega), if_pos hts.2]
  have h3 : (g.filter (fun e => decide (el < e.ts))).map
        (fun e => (e, "stage_3")) =
      (g.filter (fun e => decide (el < e.ts))).map
        (fun e => (e, ruleLabel ep el e)) := by
    apply List.map_congr_left
    intro e he
    have hts : el < e.ts := of_decide_eq_true (List.mem_filter.mp he).2
    unfold ruleLabel
    rw [if_neg (by omega), if_neg (by omega)]
  rw [h1, h2, h3, ← List.map_append, ← List.map_append]
  apply List.Perm.map
  have hp1 := List.filter_append_perm (fun e => decide (e.ts ≤ ep)) g
  have hp2 := List.filter_append_perm (fun e => decide (e.ts ≤ el))
    (g.filter (fun x => !(decide (x.ts ≤ ep))))
  have e2 : (g.filter (fun x => !(decide (x.ts ≤ ep)))).filter
        (fun e => decide (e.ts ≤ el)) =
      g.filter (fun e => decide (ep < e.ts ∧ e.ts ≤ el)) := by
    rw [List.filter_filter]
    apply List.filter_congr
    intro e _
    rw [Bool.decide_and, Bool.and_comm]
    congr 1
    rw [← decide_not]
    exact decide_eq_decide.mpr (by omega)
  have e3 : (g.filter (fun x => !(decide (x.ts ≤ ep)))).filter
        (fun x => !(decide (x.ts ≤ el))) =
      g.filter (fun e => decide (el < e.ts)) := by
    rw [List.filter_filter]
    apply List.filter_congr
    intro e _
    rw [← decide_not, ← decide_not, ← Bool.decide_and]
    exact decide_eq_decide.mpr (by omega)
  rw [List.append_assoc]
  refine List.Perm.trans (List.Perm.append_left _ ?_) hp1
  rw [← e2, ← e3]
  exact hp2

/-! ### Claim C2: the stage rule on one ordered group -/

/-- C2 (confirmed): on a timestamp-ordered group, `assign_stages`'s
group body realizes exactly the claimed rule: with no purchases every
event is `stage_1`; otherwise, with `first`/`last` the first and last
purchase timestamps, the output pairs every event (exactly once, as a
permutation of the group) with `stage_1` when `ts ≤ first`, `stage_2`
when `first < ts ≤ last`, `stage_3` when `ts > last`; and a group with
exactly one purchase event has zero `stage_2` rows and its purchase
event is labeled `stage_1`. -/
theorem claim_C2 (g : List Ev) (hs : List.Sorted tsLe g) :
    (purchaseTs g = [] →
      assignStagesGroup g = g.map (fun e => (e, "stage_1"))) ∧
    (∀ ep el : Int, (purchaseTs g).head? = some ep →
      (purchaseTs g).getLast? = some el →
      (assignStagesGroup g).Perm (g.map (fun e => (e, ruleLabel ep el e)))) ∧
    (g.countP (fun e => e.purchase) = 1 →
      (assignStagesGroup g).countP (fun p => p.2 = "stage_2") = 0 ∧
        ∀ e ∈ g, e.purchase → (e, "stage_1") ∈ assignStagesGroup g) := by
  have hsg : sortG g = g := sortG_eq_of_sorted hs
  refine ⟨?_, ?_, ?_⟩
  · intro hpt
    unfold assignStagesGroup
    rw [hpt, hsg]
    rfl
  · intro ep el hx hy
    exact assignStagesGroup_perm hs hx hy
  · intro hcount
    have hflt : (g.filter (fun e => e.purchase)).length = 1 := by
      rw [← List.countP_eq_length_filter]
      exact hcount
    rcases List.length_eq_one.mp hflt with ⟨e', he'⟩
    have hpt : purchaseTs g = [e'.ts] := by
      unfold purchaseTs
      rw [hsg, he']
      rfl
    have hperm := @assignStagesGroup_perm g hs e'.ts e'.ts
      (by rw [hpt]; rfl) (by rw [hpt]; rfl)
    constructor
    · rw [hperm.countP_eq, List.countP_map]
      apply List.countP_eq_zero.mpr
      intro a _
      unfold ruleLabel
      by_cases hts : a.ts ≤ e'.ts
      · simp [hts]
      · simp [hts]
    · intro e he hp
      have hmem : e ∈ g.filter (fun x => x.purchase) :=
        List.mem_filter.mpr ⟨he, hp⟩
      rw [he'] at hmem
      have hee : e = e' := List.mem_singleton.mp hmem
      apply hperm.mem_iff.mpr
      refine List.mem_map.mpr ⟨e, he, ?_⟩
      unfold ruleLabel
      rw [if_pos (by rw [hee])]

theorem claim_C2_witness :
    List.Sorted tsLe
        [(⟨"a", "m", -1, false, 0⟩ : Ev), ⟨"a", "m", 0, true, 1⟩,
          ⟨"a", "m", 5, false, 2⟩, ⟨"a", "m", 10, true, 3⟩,
          ⟨"a", "m", 15, false, 4⟩] ∧
      (assignStagesGroup
          [(⟨"a", "m", -1, false, 0⟩ : Ev), ⟨"a", "m", 0, true, 1⟩,
            ⟨"a", "m", 5, false, 2⟩, ⟨"a", "m", 10, true, 3⟩,
            ⟨"a", "m", 15, false, 4⟩]).Perm
        ([(⟨"a", "m", -1, false, 0⟩ : Ev), ⟨"a", "m", 0, true, 1⟩,
            ⟨"a", "m", 5, false, 2⟩, ⟨"a", "m", 10, true, 3⟩,
            ⟨"a", "m", 15, false, 4⟩].map
          (fun e => (e, ruleLabel 0 10 e))) :=
  ⟨by decide,
   (claim_C2 [⟨"a", "m", -1, false, 0⟩, ⟨"a", "m", 0, true, 1⟩,
       ⟨"a", "m", 5, false, 2⟩, ⟨"a", "m", 10, true, 3⟩,
       ⟨"a", "m", 15, false, 4⟩] (by decide)).2.1 0 10 (by decide) (by decide)⟩

/-! ### Helper lemmas: the code-point string order (C8) -/

theorem char_eq_of_toNat {a b : Char} (h : a.toNat = b.toNat) : a = b :=
  Char.ext (UInt32.toNat.inj h)

theorem string_eq_of_data {a b : String} (h : a.data = b.data) : a = b := by
  cases a
  cases b
  exact congrArg String.mk h

theorem strLtB_irrefl : ∀ as : List Char, strLtB as as = false := by
  intro as
  induction as with
  | nil => rfl
  | cons a t ih =>
      unfold strLtB
      rw [if_neg (by omega), if_neg (by omega)]
      exact ih

theorem strLtB_trans : ∀ {as bs cs : List Char}, strLtB as bs = true →
    strLtB bs cs = true → strLtB as cs = true := by
  intro as
  induction as with
  | nil =>
      intro bs cs h1 h2
      cases bs with
      | nil => exact h2
      | cons b tb =>
          cases cs with
          | nil => cases h2
          | cons c tc => rfl
  | cons a ta ih =>
      intro bs cs h1 h2
      cases bs with
      | nil => cases h1
      | cons b tb =>
          cases cs with
          | nil => cases h2
          | cons c tc =>
              unfold strLtB at h1 h2 ⊢
              by_cases hab : a.toNat < b.toNat
              · by_cases hbc : b.toNat < c.toNat
                · rw [if_pos (by omega)]
                · rw [if_neg hbc] at h2
                  by_cases hcb : c.toNat < b.toNat
                  · rw [if_pos hcb] at h2; cases h2
                  · rw [if_pos (by omega)]
              · rw [if_neg hab] at h1
                by_cases hba : b.toNat < a.toNat
                · rw [if_pos hba] at h1; cases h1
                · rw [if_neg hba] at h1
                  by_cases hbc : b.toNat < c.toNat
                  · rw [if_pos (by omega)]
                  · rw [if_neg hbc] at h2
                    by_cases hcb : c.toNat < b.toNat
                    · rw [if_pos hcb] at h2; cases h2
                    · rw [if_neg hcb] at h2
                      rw [if_neg (by omega), if_neg (by omega)]
                      exact ih h1 h2

theorem strLtB_conn : ∀ {as bs : List Char}, strLtB as bs = false →
    strLtB bs as = false → as = bs := by
  intro as
  induction as with
  | nil =>
      intro bs h1 _
      cases bs with
      | nil => rfl
      | cons b tb => cases h1
  | cons a ta ih =>
      intro bs h1 h2
      cases bs with
      | nil => cases h2
      | cons b tb =>
          unfold strLtB at h1 h2
          by_cases hab : a.toNat < b.toNat
          · rw [if_pos hab] at h1; cases h1
          · by_cases hba : b.toNat < a.toNat
            · rw [if_pos hba] at h2; cases h2
            · rw [if_neg hab, if_neg hba] at h1
              rw [if_neg hba, if_neg hab] at h2
              rw [char_eq_of_toNat (by omega : a.toNat = b.toNat), ih h1 h2]

theorem strLt_trans {a b c : String} (h1 : strLt a b) (h2 : strLt b c) :
    strLt a c :=
  strLtB_trans h1 h2

theorem strLt_irrefl (a : String) : ¬ strLt a a := by
  unfold strLt
  rw [strLtB_irrefl]
  exact Bool.false_ne_true

theorem strLt_asymm {a b : String} (h1 : strLt a b) (h2 : strLt b a) : False :=
  strLt_irrefl a (strLt_trans h1 h2)

theorem str_eq_of_not_lt {a b : String} (h1 : ¬ strLt a b) (h2 : ¬ strLt b a) :
    a = b :=
  string_eq_of_data (strLtB_conn (Bool.not_eq_true _ ▸ eq_false_of_ne_true h1)
    (Bool.not_eq_true _ ▸ eq_false_of_ne_true h2))

instance : IsTrans Ev keyTsLe :=
  ⟨by
    intro a b c hab hbc
    rcases hab with h1 | ⟨h1, h1t⟩
    · rcases hbc with h2 | ⟨h2, _⟩
      · exact Or.inl (strLt_trans h1 h2)
      · exact Or.inl (h2 ▸ h1)
    · rcases hbc with h2 | ⟨h2, h2t⟩
      · exact Or.inl (h1 ▸ h2)
      · exact Or.inr ⟨h1.trans h2, le_trans h1t h2t⟩⟩

instance : IsTotal Ev keyTsLe :=
  ⟨by
    intro a b
    by_cases h1 : strLt (fanKey a) (fanKey b)
    · exact Or.inl (Or.inl h1)
    · by_cases h2 : strLt (fanKey b) (fanKey a)
      · exact Or.inr (Or.inl h2)
      · have hk : fanKey a = fanKey b := str_eq_of_not_lt h1 h2
        rcases le_total a.ts b.ts with ht | ht
        · exact Or.inl (Or.inr ⟨hk, ht⟩)
        · exact Or.inr (Or.inr ⟨hk.symm, ht⟩)⟩

/-- Two sorted permutations of each other are equal when no two distinct
rows of a fan-model group share a timestamp (the `(key, timestamp)` sort
key is then strictly ordered, so the sorted list is unique). -/
theorem eq_of_perm_sorted_nodup :
    ∀ {l1 l2 : List Ev}, l1.Perm l2 → l1.Sorted keyTsLe → l2.Sorted keyTsLe →
      l1.Pairwise (fun a b => fanKey a = fanKey b → a.ts ≠ b.ts) → l1 = l2 := by
  intro l1
  induction l1 with
  | nil =>
      intro l2 hp _ _ _
      exact hp.nil_eq
  | cons a t1 ih =>
      intro l2 hp hs1 hs2 hnd
      cases l2 with
      | nil => cases hp.symm.nil_eq
      | cons b t2 =>
          by_cases hab : a = b
          · subst hab
            rw [ih (hp.cons_inv) hs1.of_cons hs2.of_cons hnd.of_cons]
          · exfalso
            have hain : a ∈ b :: t2 := hp.subset (List.mem_cons_self a t1)
            have hat2 : a ∈ t2 := by
              rcases List.mem_cons.mp hain with h | h
              · exact absurd h hab
              · exact h
            have hbin : b ∈ a :: t1 := hp.symm.subset (List.mem_cons_self b t2)
            have hbt1 : b ∈ t1 := by
              rcases List.mem_cons.mp hbin with h | h
              · exact absurd h.symm hab
              · exact h
            have hba : keyTsLe b a := List.rel_of_sorted_cons hs2 a hat2
            have hab2 : keyTsLe a b := List.rel_of_sorted_cons hs1 b hbt1
            have hkey : fanKey a = fanKey b ∧ a.ts = b.ts := by
              rcases hab2 with h1 | ⟨h1, h1t⟩
              · rcases hba with h2 | ⟨h2, _⟩
                · exact (strLt_asymm h1 h2).elim
                · exact absurd (h2 ▸ h1) (strLt_irrefl _)
              · rcases hba with h2 | ⟨h2, h2t⟩
                · exact absurd (h1 ▸ h2) (strLt_irrefl _)
                · exact ⟨h1, le_antisymm h1t h2t⟩
            have hnab : fanKey a = fanKey b → a.ts ≠ b.ts :=
              (List.pairwise_cons.mp hnd).1 b hbt1
            exact hnab hkey.1 hkey.2

/-- The tie-freeness hypothesis of C8: among the events that survive
preprocessing, no two rows of the same fan-model group share a
timestamp. -/
def NoGroupTies (l : List Raw) : Prop :=
  (preprocess l).Pairwise (fun a b => fanKey a = fanKey b → a.ts ≠ b.ts)

instance (l : List Raw) : Decidable (NoGroupTies l) := by
  unfold NoGroupTies
  exact List.instDecidablePairwise _

theorem preprocess_perm_eq (l l' : List Raw) (hp : l.Perm l')
    (hnd : NoGroupTies l) : preprocess l = preprocess l' := by
  have hmid : ((l.filter (fun r => !r.is_system)).map toEv).Perm
      ((l'.filter (fun r => !r.is_system)).map toEv) :=
    (hp.filter _).map _
  apply eq_of_perm_sorted_nodup
  · exact (List.perm_insertionSort _ _).trans
      (hmid.trans (List.perm_insertionSort _ _).symm)
  · exact List.sorted_insertionSort _ _
  · exact List.sorted_insertionSort _ _
  · exact hnd

/-! ### Claim C8: permutation invariance of conversation assignment -/

/-- Two raw rows whose distinct `(fan_id, model_id)` pairs collide to
the same `fan_model_id` string `"a_b_c"`, with equal timestamps. -/
def rawC8a : Raw := ⟨"a_b", "c", 0, "FALSE", false, 0⟩

def rawC8b : Raw := ⟨"a", "b_c", 0, "FALSE", false, 1⟩

def evC8a : Ev := ⟨"a_b", "c", 0, false, 0⟩

/-- C8 (counterexample): conversation assignments are not invariant
under permuting the input rows.  Two rows with equal timestamps whose
distinct `(fan_id, model_id)` pairs both derive `fan_model_id =
"a_b_c"` land in one group; the tie is broken by input order, and since
their `model_id`s differ, whichever comes second starts a new
conversation — so the same event gets `a_b_c_C1` in one input order and
`a_b_c_C2` in the other. -/
theorem claim_C8_counterexample :
    ([rawC8a, rawC8b].Perm [rawC8b, rawC8a]) ∧
      (pipelineConvs [rawC8a, rawC8b]).find? (fun p => p.1 = evC8a) ≠
        (pipelineConvs [rawC8b, rawC8a]).find? (fun p => p.1 = evC8a) :=
  ⟨List.Perm.swap rawC8b rawC8a [], by decide⟩

/-- C8 (amended): whenever no two surviving events of the same
fan-model group share a timestamp, the `(fan_model_id, timestamp)` sort
key is strictly ordered, the sorted stream is unique, and preprocessing
plus segmentation give identical conversation assignments for every
event on any permutation of the input rows. -/
theorem claim_C8_amended (l l' : List Raw) (hp : l.Perm l')
    (hnd : NoGroupTies l) : pipelineConvs l = pipelineConvs l' := by
  unfold pipelineConvs
  rw [preprocess_perm_eq l l' hp hnd]

theorem claim_C8_amended_witness :
    NoGroupTies [rawC6, ⟨"a", "m", 20000, "FALSE", false, 1⟩] ∧
      pipelineConvs [rawC6, ⟨"a", "m", 20000, "FALSE", false, 1⟩] =
        pipelineConvs [⟨"a", "m", 20000, "FALSE", false, 1⟩, rawC6] :=
  ⟨by decide,
   claim_C8_amended [rawC6, ⟨"a", "m", 20000, "FALSE", false, 1⟩]
     [⟨"a", "m", 20000, "FALSE", false, 1⟩, rawC6]
     (List.Perm.swap ⟨"a", "m", 20000, "FALSE", false, 1⟩ rawC6 [])
     (by decide)⟩

end FansAnalytics
